import Mathlib

/-!
# Repository-location validation and serialization (`components/backend/types/session.go`)

A shallow embedding of `SimpleRepo.ValidateRepo` and `SimpleRepo.ToMapForCR`, together with
the decode logic and the equality helpers of `session_test.go`
(`TestSimpleRepo_RoundTrip`, `reposEqual`, `repoLocationsEqual`). The decode function
`ParseRepoMap` of `handlers/helpers.go` is not among the source files and is modelled from
the specification.

Modelling conventions:

* a Go `string` is a Lean `String` (a sequence of Unicode scalar values, i.e. a valid
  UTF-8 Go string); `==` on strings is Lean equality;
* a Go pointer field (`*RepoLocation`, `*string`, `*bool`) is an `Option`: `nil` is `none`;
* a Go `error` result is `Except String Unit`: `nil` is `.ok ()`, and
  `fmt.Errorf(msg)` with a verb-free format string is `.error msg`;
* a Go `map[string]interface{}` is a lookup function `String → Option Value`, so that
  Lean equality of maps is equality of their key/value bindings.
-/

namespace Session

/-! ## Go standard library: `unicode.IsSpace` and `strings.TrimSpace` -/

/-- The `unicode.IsSpace` predicate of Go: in Latin-1 the characters
`'\t'`, `'\n'`, `'\v'`, `'\f'`, `'\r'`, `' '`, U+0085, U+00A0; above Latin-1 the
members of the `White_Space` range table. -/
def IsSpace (c : Char) : Bool :=
  let n := c.toNat
  if n ≤ 0xFF then
    n == 0x09 || n == 0x0A || n == 0x0B || n == 0x0C || n == 0x0D || n == 0x20
      || n == 0x85 || n == 0xA0
  else
    n == 0x1680 || (0x2000 ≤ n && n ≤ 0x200A) || n == 0x2028 || n == 0x2029
      || n == 0x202F || n == 0x205F || n == 0x3000

/-- The function `strings.TrimLeftFunc(s, unicode.IsSpace)` on a list of characters. -/
def trimLeft (l : List Char) : List Char := l.dropWhile IsSpace

/-- The function `strings.TrimRightFunc(s, unicode.IsSpace)` on a list of characters. -/
def trimRight (l : List Char) : List Char := (l.reverse.dropWhile IsSpace).reverse

/-- The function `strings.TrimSpace`: the string with all leading and trailing white space
(as defined by `unicode.IsSpace`) removed. -/
def TrimSpace (s : String) : String := ⟨trimRight (trimLeft s.data)⟩

/-! ## Data model (`session.go`, lines 34-45) -/

/-- RepoLocation represents a git repository location (input source or output target). -/
structure RepoLocation where
  URL : String
  Branch : Option String
  deriving DecidableEq, Repr

/-- SimpleRepo represents a repository configuration with input/output/autoPush structure. -/
structure SimpleRepo where
  Input : Option RepoLocation
  Output : Option RepoLocation
  AutoPush : Option Bool
  deriving DecidableEq, Repr

/-! ## `ValidateRepo` (`session.go`, lines 131-160) -/

deriving instance DecidableEq for Except

/-- The method `(*SimpleRepo).ValidateRepo`. -/
def ValidateRepo (r : SimpleRepo) : Except String Unit :=
  match r.Input with
  | none => .error "input is required"
  | some input =>
    if TrimSpace input.URL = "" then
      .error "input.url is required"
    else
      match r.Output with
      | some output =>
        let inputURL := TrimSpace input.URL
        let outputURL := TrimSpace output.URL
        let inputBranch :=
          match input.Branch with
          | some b => TrimSpace b
          | none => ""
        let outputBranch :=
          match output.Branch with
          | some b => TrimSpace b
          | none => ""
        if inputURL = outputURL ∧ inputBranch = outputBranch then
          .error "output repository must differ from input (different URL or branch required)"
        else
          .ok ()
      | none => .ok ()

/-! ## Untyped maps (`map[string]interface{}`) -/

/-- A dynamically typed Go value (`interface{}`), as far as the codec can observe it: the
nil interface, a `bool`, a number, a `string`, or a nested `map[string]interface{}`. -/
inductive Value where
  | null : Value
  | bool (b : Bool) : Value
  | num (n : Int) : Value
  | str (s : String) : Value
  | map (m : String → Option Value) : Value

/-- A Go `map[string]interface{}`: the binding of every key, `none` for an absent key. -/
abbrev GoMap := String → Option Value

/-- The empty map, `make(map[string]interface{})`. -/
def GoMap.empty : GoMap := fun _ => none

/-- The assignment `m[k] = v`. -/
def GoMap.set (m : GoMap) (k : String) (v : Value) : GoMap :=
  fun k' => if k' = k then some v else m k'

/-- The type assertion `m[k].(map[string]interface{})` with its `ok` flag. -/
def GoMap.getMap (m : GoMap) (k : String) : Option GoMap :=
  match m k with
  | some (.map sub) => some sub
  | _ => none

/-- The type assertion `m[k].(string)` with its `ok` flag. -/
def GoMap.getString (m : GoMap) (k : String) : Option String :=
  match m k with
  | some (.str s) => some s
  | _ => none

/-- The type assertion `m[k].(bool)` with its `ok` flag. -/
def GoMap.getBool (m : GoMap) (k : String) : Option Bool :=
  match m k with
  | some (.bool b) => some b
  | _ => none

/-! ## `ToMapForCR` (`session.go`, lines 163-193) -/

/-- The sub-map built for one location: the literal `{"url": loc.URL}`, then
`["branch"] = *loc.Branch` when the branch is non-nil (lines 167-172 and 177-182). -/
def locationMap (loc : RepoLocation) : GoMap :=
  let m := GoMap.empty.set "url" (.str loc.URL)
  match loc.Branch with
  | some b => m.set "branch" (.str b)
  | none => m

/-- The method `(*SimpleRepo).ToMapForCR`. -/
def ToMapForCR (r : SimpleRepo) : GoMap :=
  let m := GoMap.empty
  match r.Input with
  | some input =>
    let inputMap := locationMap input
    let m := m.set "input" (.map inputMap)
    let m :=
      match r.Output with
      | some output => m.set "output" (.map (locationMap output))
      | none => m
    let m :=
      match r.AutoPush with
      | some b => m.set "autoPush" (.bool b)
      | none => m
    m
  | none => m

/-! ## The decode path and the equality helpers of `session_test.go` -/

/-- The location parsed from a sub-map (test lines 459-466 and 471-478): start from the zero
`RepoLocation{}`, set `URL` when `"url"` is a string, set `Branch` when `"branch"` is a
string. -/
def parseLocation (sub : GoMap) : RepoLocation :=
  let loc : RepoLocation := ⟨"", none⟩
  let loc :=
    match sub.getString "url" with
    | some url => { loc with URL := url }
    | none => loc
  let loc :=
    match sub.getString "branch" with
    | some branch => { loc with Branch := some branch }
    | none => loc
  loc

/-- The value `reconstructed` computed by the body of `TestSimpleRepo_RoundTrip`
(test lines 454-484, "using ParseRepoMap equivalent logic") from the map `m`. -/
def reconstructed (m : GoMap) : SimpleRepo :=
  let r : SimpleRepo := ⟨none, none, none⟩
  let r :=
    match m.getMap "input" with
    | some inputMap => { r with Input := some (parseLocation inputMap) }
    | none => r
  let r :=
    match m.getMap "output" with
    | some outputMap => { r with Output := some (parseLocation outputMap) }
    | none => r
  let r :=
    match m.getBool "autoPush" with
    | some autoPush => { r with AutoPush := some autoPush }
    | none => r
  r

/-- The helper `repoLocationsEqual` of `session_test.go`. -/
def repoLocationsEqual (a b : Option RepoLocation) : Bool :=
  match a, b with
  | none, none => true
  | none, some _ => false
  | some _, none => false
  | some a, some b =>
    if a.URL ≠ b.URL then false
    else if a.Branch.isNone != b.Branch.isNone then false
    else
      match a.Branch, b.Branch with
      | some x, some y => if x ≠ y then false else true
      | _, _ => true

/-- The helper `reposEqual` of `session_test.go`. -/
def reposEqual (a b : SimpleRepo) : Bool :=
  if !repoLocationsEqual a.Input b.Input then false
  else if !repoLocationsEqual a.Output b.Output then false
  else if a.AutoPush.isNone != b.AutoPush.isNone then false
  else
    match a.AutoPush, b.AutoPush with
    | some x, some y => if x ≠ y then false else true
    | _, _ => true

/-! ## Vocabulary of the specification -/

/-- A string that is empty or consists only of white space. -/
def isBlank (s : String) : Bool := s.data.all IsSpace

/-- The normalized branch used for comparison: a nil branch is the empty string, a non-nil
branch its trimmed value. -/
def normBranch (b : Option String) : String :=
  match b with
  | some s => TrimSpace s
  | none => ""

/-- The message of the `MissingInput` validation error. -/
def MissingInput : String := "input is required"

/-- The message of the `MissingInputURL` validation error. -/
def MissingInputURL : String := "input.url is required"

/-- The message of the `IdenticalInputOutput` validation error. -/
def IdenticalInputOutput : String :=
  "output repository must differ from input (different URL or branch required)"

/-- The pair compared by validation: the trimmed URL and the normalized branch. -/
def normLocation (loc : RepoLocation) : String × String :=
  (TrimSpace loc.URL, normBranch loc.Branch)

/-- A branch that is nil, the empty string, or a whitespace-only string. -/
def blankBranch (b : Option String) : Bool :=
  match b with
  | some s => isBlank s
  | none => true

/-- The location `b` is the location `a` with, possibly, its branch replaced: both are absent,
or both are present with the same URL and either the same branch or two branches that are
each nil, empty or whitespace-only. -/
def branchReplaced (a b : Option RepoLocation) : Bool :=
  match a, b with
  | none, none => true
  | some x, some y =>
    decide (x.URL = y.URL) &&
      (decide (x.Branch = y.Branch) || (blankBranch x.Branch && blankBranch y.Branch))
  | _, _ => false

/-- The sub-map the specification prescribes for a location: `url` always, `branch` only
when the branch is non-nil, and no other key. -/
def specLocationMap (loc : RepoLocation) : GoMap := fun k =>
  if k = "url" then some (.str loc.URL)
  else if k = "branch" then loc.Branch.map .str
  else none

/-- The map the specification prescribes for a repo with input `input`: `input` always,
`output` only when the output is present, `autoPush` only when the flag is non-nil, and no
other key. -/
def specEncoding (input : RepoLocation) (output : Option RepoLocation)
    (autoPush : Option Bool) : GoMap := fun k =>
  if k = "input" then some (.map (specLocationMap input))
  else if k = "output" then output.map (fun o => .map (specLocationMap o))
  else if k = "autoPush" then autoPush.map .bool
  else none

/-- The map has a binding for the key (the `ok` flag of `_, ok := m[k]`). -/
def GoMap.hasKey (m : GoMap) (k : String) : Bool := (m k).isSome

/-- The location with its URL and its non-nil branch replaced by their `TrimSpace` values. -/
def trimLocation (loc : RepoLocation) : RepoLocation :=
  ⟨TrimSpace loc.URL, loc.Branch.map TrimSpace⟩

/-- The repo with every URL and every non-nil branch replaced by its `TrimSpace` value. -/
def trimRepo (r : SimpleRepo) : SimpleRepo :=
  ⟨r.Input.map trimLocation, r.Output.map trimLocation, r.AutoPush⟩

/-- The persisted shape of a location sub-map: a string `url`, an optional string `branch`, and
no other key. -/
def WellFormedLocationMap (sub : GoMap) : Prop :=
  (∃ u, sub "url" = some (.str u)) ∧
    (sub "branch" = none ∨ ∃ b, sub "branch" = some (.str b)) ∧
    ∀ k, k ≠ "url" → k ≠ "branch" → sub k = none

/-- The persisted shape of one repo entry: an `input` sub-map, an optional `output` sub-map,
an optional boolean `autoPush`, and no other key. -/
def WellFormedRepoMap (m : GoMap) : Prop :=
  (∃ sub, m "input" = some (.map sub) ∧ WellFormedLocationMap sub) ∧
    (m "output" = none ∨ ∃ sub, m "output" = some (.map sub) ∧ WellFormedLocationMap sub) ∧
    (m "autoPush" = none ∨ ∃ b, m "autoPush" = some (.bool b)) ∧
    ∀ k, k ≠ "input" → k ≠ "output" → k ≠ "autoPush" → m k = none

/-- Modelled from the spec: the decode-time error taxonomy of `ParseRepoMap`
(`handlers/helpers.go`, not among the source files), whose single kind is
`MalformedEncodedRepo`. -/
inductive DecodeError where
  | MalformedEncodedRepo : DecodeError
  deriving DecidableEq, Repr

/-- Modelled from the spec: the decode function `ParseRepoMap` of `handlers/helpers.go`, which
is not among the source files. It reconstructs a repo by reading the same keys with the same
optionality rules as the encoder writes them (the keys read by the round-trip test), is
tolerant of missing optional keys, and fails with `MalformedEncodedRepo` instead of
defaulting when `input` or `input.url` is absent; it performs no business-rule checking. -/
def ParseRepoMap (m : GoMap) : Except DecodeError SimpleRepo :=
  match m.getMap "input" with
  | none => .error .MalformedEncodedRepo
  | some inputMap =>
    match inputMap.getString "url" with
    | none => .error .MalformedEncodedRepo
    | some _ => .ok (reconstructed m)

/-! ## Lemmas on trimming -/

theorem trimRight_eq_nil_iff (l : List Char) :
    trimRight l = [] ↔ ∀ c ∈ l, IsSpace c = true := by
  simp [trimRight, List.dropWhile_eq_nil_iff]

theorem trimLeft_head_not_space (l : List Char) (c : Char) (t : List Char)
    (h : trimLeft l = c :: t) : IsSpace c = false := by
  induction l with
  | nil => simp [trimLeft] at h
  | cons a l ih =>
    unfold trimLeft at h ih
    rw [List.dropWhile_cons] at h
    by_cases ha : IsSpace a = true
    · rw [if_pos ha] at h
      exact ih h
    · rw [if_neg ha] at h
      cases h
      simpa using ha

theorem trim_eq_nil_iff (l : List Char) :
    trimRight (trimLeft l) = [] ↔ ∀ c ∈ l, IsSpace c = true := by
  rw [trimRight_eq_nil_iff]
  constructor
  · intro h
    cases hl : trimLeft l with
    | nil => simpa [trimLeft, List.dropWhile_eq_nil_iff] using hl
    | cons c t =>
      have h1 := trimLeft_head_not_space l c t hl
      have h2 := h c (by rw [hl]; simp)
      rw [h1] at h2
      exact absurd h2 (by decide)
  · intro h
    have : trimLeft l = [] := by simpa [trimLeft, List.dropWhile_eq_nil_iff] using h
    rw [this]
    simp

theorem TrimSpace_eq_empty_iff (s : String) : TrimSpace s = "" ↔ isBlank s = true := by
  rw [String.ext_iff]
  simp only [TrimSpace, isBlank, List.all_eq_true]
  exact trim_eq_nil_iff s.data

theorem trimRight_prefix (l : List Char) : trimRight l <+: l :=
  List.rdropWhile_prefix IsSpace l

theorem trimRight_idem (l : List Char) : trimRight (trimRight l) = trimRight l := by
  simp [trimRight, List.dropWhile_idempotent]

theorem trimLeft_trimRight_trimLeft (l : List Char) :
    trimLeft (trimRight (trimLeft l)) = trimRight (trimLeft l) := by
  cases hx : trimLeft l with
  | nil => rfl
  | cons c t =>
    have hc : IsSpace c = false := trimLeft_head_not_space l c t hx
    cases hy : trimRight (c :: t) with
    | nil =>
      have hall := (trimRight_eq_nil_iff (c :: t)).mp hy c (by simp)
      rw [hc] at hall
      exact absurd hall (by decide)
    | cons d u =>
      have hpre := trimRight_prefix (c :: t)
      rw [hy] at hpre
      obtain ⟨v, hv⟩ := hpre
      have hd : d = c := by
        simp only [List.cons_append, List.cons.injEq] at hv
        exact hv.1
      subst hd
      simp [trimLeft, List.dropWhile_cons, hc]

theorem TrimSpace_idem (s : String) : TrimSpace (TrimSpace s) = TrimSpace s := by
  simp only [TrimSpace]
  rw [trimLeft_trimRight_trimLeft, trimRight_idem]

/-! ## Lemmas on the codec and on the equality helpers -/

theorem parseLocation_locationMap (loc : RepoLocation) :
    parseLocation (locationMap loc) = loc := by
  obtain ⟨url, branch⟩ := loc
  cases branch <;>
    simp [parseLocation, locationMap, GoMap.set, GoMap.empty, GoMap.getString]

theorem locationMap_eq_spec (loc : RepoLocation) : locationMap loc = specLocationMap loc := by
  obtain ⟨url, branch⟩ := loc
  funext k
  cases branch with
  | none =>
    simp only [locationMap, specLocationMap, GoMap.set, GoMap.empty, Option.map_none']
    by_cases h1 : k = "url"
    · simp [h1]
    · simp [h1]
  | some b =>
    simp only [locationMap, specLocationMap, GoMap.set, GoMap.empty, Option.map_some']
    by_cases h1 : k = "url"
    · subst h1
      simp
    · simp [h1]

theorem reconstructed_ToMapForCR (input : RepoLocation) (output : Option RepoLocation)
    (autoPush : Option Bool) :
    reconstructed (ToMapForCR ⟨some input, output, autoPush⟩) = ⟨some input, output, autoPush⟩ := by
  cases output <;> cases autoPush <;>
    simp [reconstructed, ToMapForCR, GoMap.set, GoMap.empty, GoMap.getMap, GoMap.getBool,
      parseLocation_locationMap]

theorem repoLocationsEqual_iff (a b : Option RepoLocation) :
    repoLocationsEqual a b = true ↔ a = b := by
  cases a with
  | none => cases b <;> simp [repoLocationsEqual]
  | some a =>
    cases b with
    | none => simp [repoLocationsEqual]
    | some b =>
      obtain ⟨ua, ba⟩ := a
      obtain ⟨ub, bb⟩ := b
      cases ba <;> cases bb <;> simp [repoLocationsEqual]

theorem reposEqual_iff (a b : SimpleRepo) : reposEqual a b = true ↔ a = b := by
  obtain ⟨ia, oa, pa⟩ := a
  obtain ⟨ib, ob, pb⟩ := b
  have hi := repoLocationsEqual_iff ia ib
  have ho := repoLocationsEqual_iff oa ob
  by_cases h1 : repoLocationsEqual ia ib = true <;>
    by_cases h2 : repoLocationsEqual oa ob = true <;>
    cases pa <;> cases pb <;> simp_all [reposEqual]

theorem input_of_valid (r : SimpleRepo) (h : ValidateRepo r = .ok ()) :
    ∃ input, r.Input = some input := by
  obtain ⟨i, o, p⟩ := r
  cases i with
  | none => simp [ValidateRepo] at h
  | some input => exact ⟨input, rfl⟩

theorem ToMapForCR_eq_spec (input : RepoLocation) (o : Option RepoLocation)
    (p : Option Bool) : ToMapForCR ⟨some input, o, p⟩ = specEncoding input o p := by
  funext k
  cases o <;> cases p <;>
    simp only [ToMapForCR, specEncoding, GoMap.set, GoMap.empty, locationMap_eq_spec,
      Option.map_none', Option.map_some'] <;>
    by_cases h1 : k = "input" <;> by_cases h2 : k = "output" <;>
    by_cases h3 : k = "autoPush" <;> simp_all

theorem ToMapForCR_nil_input (o : Option RepoLocation) (p : Option Bool) :
    ToMapForCR ⟨none, o, p⟩ = GoMap.empty := rfl

theorem specLocationMap_hasKey_branch (loc : RepoLocation) :
    (specLocationMap loc).hasKey "branch" = loc.Branch.isSome := by
  cases h : loc.Branch <;> simp [GoMap.hasKey, specLocationMap, h]

theorem reconstructed_eq (m : GoMap) :
    reconstructed m =
      ⟨(m.getMap "input").map parseLocation, (m.getMap "output").map parseLocation,
        m.getBool "autoPush"⟩ := by
  unfold reconstructed
  cases m.getMap "input" <;> cases m.getMap "output" <;> cases m.getBool "autoPush" <;> rfl

theorem getMap_eq_none_of_absent (m : GoMap) (k : String) (h : m k = none) :
    m.getMap k = none := by
  simp [GoMap.getMap, h]

theorem getMap_of_map (m : GoMap) (k : String) (sub : GoMap) (h : m k = some (.map sub)) :
    m.getMap k = some sub := by
  simp [GoMap.getMap, h]

theorem parseLocation_URL_of_absent (sub : GoMap) (h : sub "url" = none) :
    (parseLocation sub).URL = "" := by
  unfold parseLocation
  have h1 : sub.getString "url" = none := by simp [GoMap.getString, h]
  rw [h1]
  cases sub.getString "branch" <;> rfl

theorem specLocationMap_getString_url (loc : RepoLocation) :
    (specLocationMap loc).getString "url" = some loc.URL := by
  simp [GoMap.getString, specLocationMap]

theorem specLocationMap_branch (loc : RepoLocation) :
    specLocationMap loc "branch" = loc.Branch.map Value.str := by
  simp [specLocationMap]

theorem specLocationMap_parseLocation (sub : GoMap) (h : WellFormedLocationMap sub) :
    specLocationMap (parseLocation sub) = sub := by
  obtain ⟨⟨u, hu⟩, hb, hrest⟩ := h
  have h1 : sub.getString "url" = some u := by simp [GoMap.getString, hu]
  funext k
  rcases hb with hb | ⟨b, hb⟩
  · have h2 : sub.getString "branch" = none := by simp [GoMap.getString, hb]
    simp only [specLocationMap, parseLocation, h1, h2, Option.map_none']
    by_cases k1 : k = "url"
    · rw [if_pos k1, k1, hu]
    · by_cases k2 : k = "branch"
      · rw [if_neg k1, if_pos k2, k2, hb]
      · rw [if_neg k1, if_neg k2, hrest k k1 k2]
  · have h2 : sub.getString "branch" = some b := by simp [GoMap.getString, hb]
    simp only [specLocationMap, parseLocation, h1, h2, Option.map_some']
    by_cases k1 : k = "url"
    · rw [if_pos k1, k1, hu]
    · by_cases k2 : k = "branch"
      · rw [if_neg k1, if_pos k2, k2, hb]
      · rw [if_neg k1, if_neg k2, hrest k k1 k2]

theorem getBool_eq_none_of_absent (m : GoMap) (k : String) (h : m k = none) :
    m.getBool k = none := by
  simp [GoMap.getBool, h]

theorem getBool_of_bool (m : GoMap) (k : String) (b : Bool) (h : m k = some (.bool b)) :
    m.getBool k = some b := by
  simp [GoMap.getBool, h]

theorem specLocationMap_wellFormed (loc : RepoLocation) :
    WellFormedLocationMap (specLocationMap loc) := by
  refine ⟨⟨loc.URL, by simp [specLocationMap]⟩, ?_, ?_⟩
  · cases hb : loc.Branch with
    | none => exact Or.inl (by simp [specLocationMap, hb])
    | some b => exact Or.inr ⟨b, by simp [specLocationMap, hb]⟩
  · intro k k1 k2
    simp [specLocationMap, k1, k2]

theorem specEncoding_wellFormed (input : RepoLocation) (o : Option RepoLocation)
    (p : Option Bool) : WellFormedRepoMap (specEncoding input o p) := by
  refine ⟨⟨specLocationMap input, by simp [specEncoding], specLocationMap_wellFormed input⟩,
    ?_, ?_, ?_⟩
  · cases o with
    | none => exact Or.inl (by simp [specEncoding])
    | some out =>
      exact Or.inr ⟨specLocationMap out, by simp [specEncoding], specLocationMap_wellFormed out⟩
  · cases p with
    | none => exact Or.inl (by simp [specEncoding])
    | some b => exact Or.inr ⟨b, by simp [specEncoding]⟩
  · intro k k1 k2 k3
    simp [specEncoding, k1, k2, k3]

theorem ParseRepoMap_eq_reconstructed (m : GoMap) (r : SimpleRepo)
    (h : ParseRepoMap m = .ok r) : r = reconstructed m := by
  unfold ParseRepoMap at h
  split at h
  · cases h
  · split at h
    · cases h
    · cases h
      rfl

theorem ParseRepoMap_ToMapForCR (input : RepoLocation) (o : Option RepoLocation)
    (p : Option Bool) :
    ParseRepoMap (ToMapForCR ⟨some input, o, p⟩) = .ok ⟨some input, o, p⟩ := by
  have hm : (ToMapForCR ⟨some input, o, p⟩).getMap "input" = some (specLocationMap input) := by
    rw [ToMapForCR_eq_spec]
    rfl
  simp only [ParseRepoMap, hm, specLocationMap_getString_url, reconstructed_ToMapForCR]

/-! ## Unfolding `ValidateRepo` -/

theorem ValidateRepo_blank (input : RepoLocation) (o : Option RepoLocation) (p : Option Bool)
    (hu : TrimSpace input.URL = "") :
    ValidateRepo ⟨some input, o, p⟩ = .error MissingInputURL := by
  simp [ValidateRepo, hu, MissingInputURL]

theorem ValidateRepo_no_output (input : RepoLocation) (p : Option Bool)
    (hu : TrimSpace input.URL ≠ "") :
    ValidateRepo ⟨some input, none, p⟩ = .ok () := by
  simp [ValidateRepo, hu]

theorem ValidateRepo_output (input output : RepoLocation) (p : Option Bool)
    (hu : TrimSpace input.URL ≠ "") :
    ValidateRepo ⟨some input, some output, p⟩ =
      if TrimSpace input.URL = TrimSpace output.URL ∧
          normBranch input.Branch = normBranch output.Branch then
        .error IdenticalInputOutput
      else .ok () := by
  obtain ⟨ui, bi⟩ := input
  obtain ⟨uo, bo⟩ := output
  have hu' : ¬ TrimSpace ui = "" := hu
  cases bi <;> cases bo <;> simp only [ValidateRepo, normBranch, hu', if_false, IdenticalInputOutput]

theorem normBranch_of_blank (b : Option String) (h : blankBranch b = true) :
    normBranch b = "" := by
  cases b with
  | none => rfl
  | some s => exact (TrimSpace_eq_empty_iff s).mpr h

theorem ValidateRepo_congr (r r' : SimpleRepo)
    (hI : r.Input.map normLocation = r'.Input.map normLocation)
    (hO : r.Output.map normLocation = r'.Output.map normLocation) :
    ValidateRepo r = ValidateRepo r' := by
  obtain ⟨i, o, p⟩ := r
  obtain ⟨i', o', p'⟩ := r'
  simp only at hI hO
  cases i with
  | none =>
    cases i' with
    | none => rfl
    | some _ => simp at hI
  | some a =>
    cases i' with
    | none => simp at hI
    | some a' =>
      simp only [Option.map_some', Option.some.injEq, normLocation, Prod.mk.injEq] at hI
      obtain ⟨hu, hb⟩ := hI
      by_cases hblank : TrimSpace a.URL = ""
      · rw [ValidateRepo_blank a o p hblank, ValidateRepo_blank a' o' p' (hu ▸ hblank)]
      · have hblank' : TrimSpace a'.URL ≠ "" := hu ▸ hblank
        cases o with
        | none =>
          cases o' with
          | none => rw [ValidateRepo_no_output a p hblank, ValidateRepo_no_output a' p' hblank']
          | some _ => simp at hO
        | some b =>
          cases o' with
          | none => simp at hO
          | some b' =>
            simp only [Option.map_some', Option.some.injEq, normLocation, Prod.mk.injEq] at hO
            rw [ValidateRepo_output a b p hblank, ValidateRepo_output a' b' p' hblank',
              hu, hb, hO.1, hO.2]

theorem normLocation_trimLocation (loc : RepoLocation) :
    normLocation (trimLocation loc) = normLocation loc := by
  obtain ⟨u, b⟩ := loc
  cases b <;> simp [normLocation, trimLocation, normBranch, TrimSpace_idem]

theorem map_normLocation_trimLocation (a : Option RepoLocation) :
    (a.map trimLocation).map normLocation = a.map normLocation := by
  cases a with
  | none => rfl
  | some loc => simp [normLocation_trimLocation]

theorem normLocation_of_branchReplaced (a b : Option RepoLocation)
    (h : branchReplaced a b = true) : a.map normLocation = b.map normLocation := by
  cases a with
  | none => cases b <;> simp_all [branchReplaced]
  | some x =>
    cases b with
    | none => simp [branchReplaced] at h
    | some y =>
      simp only [branchReplaced, Bool.and_eq_true, Bool.or_eq_true, decide_eq_true_eq] at h
      obtain ⟨hu, hb⟩ := h
      simp only [Option.map_some', Option.some.injEq, normLocation, Prod.mk.injEq]
      refine ⟨by rw [hu], ?_⟩
      rcases hb with hb | ⟨h1, h2⟩
      · rw [hb]
      · rw [normBranch_of_blank _ h1, normBranch_of_blank _ h2]

/-! ## The claims -/

/-- C1 (round-trip law): for every repo accepted by `ValidateRepo`, decoding the map returned
by `ToMapForCR` with the decode logic of the round-trip test yields a repo that the test's
`reposEqual` accepts as equal to the original, and that is the original, field for field. -/
theorem round_trip_of_valid (r : SimpleRepo) (h : ValidateRepo r = .ok ()) :
    reposEqual r (reconstructed (ToMapForCR r)) = true ∧ reconstructed (ToMapForCR r) = r := by
  obtain ⟨input, hin⟩ := input_of_valid r h
  obtain ⟨i, o, p⟩ := r
  simp only at hin
  subst hin
  have hrt := reconstructed_ToMapForCR input o p
  exact ⟨(reposEqual_iff _ _).mpr hrt.symm, hrt⟩

/-- Witness for C1: the "with autoPush true" case of `TestSimpleRepo_RoundTrip`. -/
theorem round_trip_of_valid_witness :
    ValidateRepo ⟨some ⟨"https://github.com/user/repo", some "main"⟩,
        some ⟨"https://github.com/user/fork", some "feature"⟩, some true⟩ = .ok () ∧
      (reposEqual ⟨some ⟨"https://github.com/user/repo", some "main"⟩,
          some ⟨"https://github.com/user/fork", some "feature"⟩, some true⟩
        (reconstructed (ToMapForCR ⟨some ⟨"https://github.com/user/repo", some "main"⟩,
          some ⟨"https://github.com/user/fork", some "feature"⟩, some true⟩)) = true ∧
      reconstructed (ToMapForCR ⟨some ⟨"https://github.com/user/repo", some "main"⟩,
          some ⟨"https://github.com/user/fork", some "feature"⟩, some true⟩)
        = ⟨some ⟨"https://github.com/user/repo", some "main"⟩,
          some ⟨"https://github.com/user/fork", some "feature"⟩, some true⟩) :=
  ⟨by decide, round_trip_of_valid _ (by decide)⟩

/-- C2 (validation succeeds exactly when I1 and I2 hold): `ValidateRepo` returns nil if and
only if the input is present, its trimmed URL is non-empty, and the output is absent or
differs from the input in the trimmed URL or in the normalized branch; in particular every
repo with a non-blank input URL and no output is accepted. -/
theorem validate_ok_iff (r : SimpleRepo) :
    (ValidateRepo r = .ok () ↔
      ∃ input, r.Input = some input ∧ TrimSpace input.URL ≠ "" ∧
        (r.Output = none ∨ ∃ output, r.Output = some output ∧
          (TrimSpace output.URL ≠ TrimSpace input.URL ∨
            normBranch output.Branch ≠ normBranch input.Branch))) ∧
    (∀ input, r.Input = some input → TrimSpace input.URL ≠ "" → r.Output = none →
      ValidateRepo r = .ok ()) := by
  obtain ⟨i, o, p⟩ := r
  constructor
  · cases i with
    | none => simp [ValidateRepo]
    | some input =>
      by_cases hu : TrimSpace input.URL = ""
      · simp [ValidateRepo_blank input o p hu, hu]
      · cases o with
        | none => simp [ValidateRepo_no_output input p hu, hu]
        | some output =>
          rw [ValidateRepo_output input output p hu]
          by_cases h : TrimSpace input.URL = TrimSpace output.URL ∧
              normBranch input.Branch = normBranch output.Branch
          · rw [if_pos h]
            simp [hu, h.1, h.2]
          · rw [if_neg h]
            simp only [true_iff]
            refine ⟨input, rfl, hu, Or.inr ⟨output, rfl, ?_⟩⟩
            by_cases h1 : TrimSpace output.URL = TrimSpace input.URL
            · right
              intro h2
              exact h ⟨h1.symm, h2.symm⟩
            · exact Or.inl h1
  · intro input hin hu hout
    simp only at hin hout
    subst hin hout
    exact ValidateRepo_no_output input p hu

/-- Witness for C2: scenario 4 of the specification is accepted, and a repo with a non-blank
input URL and no output is accepted. -/
theorem validate_ok_iff_witness :
    ValidateRepo ⟨some ⟨"https://github.com/user/repo", none⟩,
        some ⟨"https://github.com/user/fork", none⟩, some true⟩ = .ok () ∧
      ValidateRepo ⟨some ⟨"https://github.com/user/repo", some "main"⟩, none, none⟩ = .ok () :=
  ⟨(validate_ok_iff ⟨some ⟨"https://github.com/user/repo", none⟩,
        some ⟨"https://github.com/user/fork", none⟩, some true⟩).1.mpr
      ⟨⟨"https://github.com/user/repo", none⟩, rfl, by decide,
        Or.inr ⟨⟨"https://github.com/user/fork", none⟩, rfl, Or.inl (by decide)⟩⟩,
    (validate_ok_iff ⟨some ⟨"https://github.com/user/repo", some "main"⟩, none, none⟩).2
      ⟨"https://github.com/user/repo", some "main"⟩ rfl (by decide) rfl⟩

/-- C3 (P1, required input): a repo whose input is nil is rejected with the `MissingInput`
error, whose message is "input is required", whatever its output and auto-push flag. -/
theorem missing_input (r : SimpleRepo) (h : r.Input = none) :
    ValidateRepo r = .error MissingInput ∧ MissingInput = "input is required" := by
  obtain ⟨i, o, p⟩ := r
  simp only at h
  subst h
  exact ⟨rfl, rfl⟩

/-- Witness for C3: a nil input with an output and an auto-push flag set. -/
theorem missing_input_witness :
    ValidateRepo ⟨none, some ⟨"https://github.com/user/fork", none⟩, some true⟩
        = .error MissingInput ∧ MissingInput = "input is required" :=
  missing_input ⟨none, some ⟨"https://github.com/user/fork", none⟩, some true⟩ rfl

/-- C4 (P2, blank URL, first violated rule wins): a repo whose input is present with an
empty or whitespace-only URL is rejected with the `MissingInputURL` error, whose message is
"input.url is required", whatever the output is; the error is not
`IdenticalInputOutput`. -/
theorem blank_input_url (r : SimpleRepo) (input : RepoLocation) (hin : r.Input = some input)
    (hblank : isBlank input.URL = true) :
    ValidateRepo r = .error MissingInputURL ∧ MissingInputURL = "input.url is required" ∧
      ValidateRepo r ≠ .error IdenticalInputOutput := by
  obtain ⟨i, o, p⟩ := r
  simp only at hin
  subst hin
  have hu : TrimSpace input.URL = "" := (TrimSpace_eq_empty_iff _).mpr hblank
  have hv : ValidateRepo ⟨some input, o, p⟩ = .error MissingInputURL :=
    ValidateRepo_blank input o p hu
  refine ⟨hv, rfl, ?_⟩
  rw [hv]
  decide

/-- Witness for C4: a whitespace-only input URL with an output that is identical to the
input after trimming. -/
theorem blank_input_url_witness :
    ValidateRepo ⟨some ⟨"   ", some "main"⟩, some ⟨"", some " main "⟩, none⟩
        = .error MissingInputURL ∧ MissingInputURL = "input.url is required" ∧
      ValidateRepo ⟨some ⟨"   ", some "main"⟩, some ⟨"", some " main "⟩, none⟩
        ≠ .error IdenticalInputOutput :=
  blank_input_url ⟨some ⟨"   ", some "main"⟩, some ⟨"", some " main "⟩, none⟩
    ⟨"   ", some "main"⟩ rfl (by decide)

/-- Counterexample to C5 as stated: with a whitespace-only input URL and an empty output URL
the trimmed URLs are equal and the normalized branches (nil and whitespace-only) are equal,
yet the error is `MissingInputURL`, not `IdenticalInputOutput`. -/
theorem identical_rejected_counterexample :
    TrimSpace " " = TrimSpace "" ∧ normBranch none = normBranch (some "  ") ∧
      ValidateRepo ⟨some ⟨" ", none⟩, some ⟨"", some "  "⟩, none⟩ = .error MissingInputURL ∧
      ValidateRepo ⟨some ⟨" ", none⟩, some ⟨"", some "  "⟩, none⟩
        ≠ .error IdenticalInputOutput := by
  decide

/-- C5 amended (P3, rejection half): a repo with input and output both present, whose trimmed
input URL is non-empty, whose trimmed URLs are equal and whose normalized branches are equal,
is rejected with the `IdenticalInputOutput` error, whose message is "output repository must
differ from input (different URL or branch required)". -/
theorem identical_rejected (r : SimpleRepo) (input output : RepoLocation)
    (hin : r.Input = some input) (hout : r.Output = some output)
    (hurl : TrimSpace input.URL ≠ "")
    (hu : TrimSpace input.URL = TrimSpace output.URL)
    (hb : normBranch input.Branch = normBranch output.Branch) :
    ValidateRepo r = .error IdenticalInputOutput ∧
      IdenticalInputOutput
        = "output repository must differ from input (different URL or branch required)" := by
  obtain ⟨i, o, p⟩ := r
  simp only at hin hout
  subst hin hout
  rw [ValidateRepo_output input output p hurl, if_pos ⟨hu, hb⟩]
  exact ⟨rfl, rfl⟩

/-- Witness for C5 amended: padded URLs that agree after trimming, branches `"  "` and nil. -/
theorem identical_rejected_witness :
    ValidateRepo ⟨some ⟨"https://github.com/user/repo ", some "  "⟩,
        some ⟨" https://github.com/user/repo", none⟩, some false⟩
        = .error IdenticalInputOutput ∧
      IdenticalInputOutput
        = "output repository must differ from input (different URL or branch required)" :=
  identical_rejected ⟨some ⟨"https://github.com/user/repo ", some "  "⟩,
      some ⟨" https://github.com/user/repo", none⟩, some false⟩
    ⟨"https://github.com/user/repo ", some "  "⟩ ⟨" https://github.com/user/repo", none⟩
    rfl rfl (by decide) (by decide) (by decide)

/-- Counterexample to C6 as stated: with an empty input URL and a different output URL the
trimmed URLs differ, yet validation fails (with `MissingInputURL`). -/
theorem distinct_accepted_counterexample :
    TrimSpace "" ≠ TrimSpace "https://github.com/user/fork" ∧
      ValidateRepo ⟨some ⟨"", some "main"⟩, some ⟨"https://github.com/user/fork", some "main"⟩,
        none⟩ = .error MissingInputURL ∧
      ValidateRepo ⟨some ⟨"", some "main"⟩, some ⟨"https://github.com/user/fork", some "main"⟩,
        none⟩ ≠ .ok () := by
  decide

/-- C6 amended (P3, acceptance half): a repo with input and output both present, whose
trimmed input URL is non-empty, and whose trimmed URLs differ or whose normalized branches
differ, is accepted. -/
theorem distinct_accepted (r : SimpleRepo) (input output : RepoLocation)
    (hin : r.Input = some input) (hout : r.Output = some output)
    (hurl : TrimSpace input.URL ≠ "")
    (hd : TrimSpace input.URL ≠ TrimSpace output.URL ∨
      normBranch input.Branch ≠ normBranch output.Branch) :
    ValidateRepo r = .ok () := by
  obtain ⟨i, o, p⟩ := r
  simp only at hin hout
  subst hin hout
  rw [ValidateRepo_output input output p hurl, if_neg]
  rintro ⟨h1, h2⟩
  rcases hd with hd | hd
  · exact hd h1
  · exact hd h2

/-- Witness for C6 amended: same URL, branches "main" and "feature" (a test case of
`TestSimpleRepo_ValidateRepo`). -/
theorem distinct_accepted_witness :
    ValidateRepo ⟨some ⟨"https://github.com/user/repo", some "main"⟩,
        some ⟨"https://github.com/user/repo", some "feature"⟩, none⟩ = .ok () :=
  distinct_accepted ⟨some ⟨"https://github.com/user/repo", some "main"⟩,
      some ⟨"https://github.com/user/repo", some "feature"⟩, none⟩
    ⟨"https://github.com/user/repo", some "main"⟩ ⟨"https://github.com/user/repo", some "feature"⟩
    rfl rfl (by decide) (Or.inr (by decide))

/-- C7 (P4, branch normalization): when `r'` is obtained from `r` by replacing the input
branch and/or the output branch, each replaced branch and its replacement being nil, empty or
whitespace-only, `ValidateRepo` returns the same result on `r` and `r'`; and scenario 5 of
the specification (the same URL on both sides, input branch nil and output branch `""`) is
rejected as `IdenticalInputOutput`. -/
theorem blank_branches_interchangeable (r r' : SimpleRepo)
    (hI : branchReplaced r.Input r'.Input = true)
    (hO : branchReplaced r.Output r'.Output = true) :
    ValidateRepo r = ValidateRepo r' ∧
      ValidateRepo ⟨some ⟨"https://github.com/user/repo", none⟩,
        some ⟨"https://github.com/user/repo", some ""⟩, none⟩
        = .error IdenticalInputOutput := by
  refine ⟨ValidateRepo_congr r r' (normLocation_of_branchReplaced _ _ hI)
    (normLocation_of_branchReplaced _ _ hO), ?_⟩
  rw [ValidateRepo_output _ _ _ (by decide), if_pos (by decide)]

/-- Witness for C7: input branch `"  "` replaced by nil and output branch nil replaced by
`"\t"`, on a repo that is rejected as `IdenticalInputOutput` before and after. -/
theorem blank_branches_interchangeable_witness :
    (ValidateRepo ⟨some ⟨"https://github.com/user/repo", some "  "⟩,
        some ⟨"https://github.com/user/repo", none⟩, some true⟩
      = ValidateRepo ⟨some ⟨"https://github.com/user/repo", none⟩,
        some ⟨"https://github.com/user/repo", some "\t"⟩, some true⟩) ∧
      ValidateRepo ⟨some ⟨"https://github.com/user/repo", none⟩,
        some ⟨"https://github.com/user/repo", some ""⟩, none⟩
        = .error IdenticalInputOutput :=
  blank_branches_interchangeable
    ⟨some ⟨"https://github.com/user/repo", some "  "⟩,
      some ⟨"https://github.com/user/repo", none⟩, some true⟩
    ⟨some ⟨"https://github.com/user/repo", none⟩,
      some ⟨"https://github.com/user/repo", some "\t"⟩, some true⟩
    (by decide) (by decide)

/-- C8 (exact encoding): for a repo with input present, `ToMapForCR` returns exactly the map
binding `input` to `{url}` plus `branch` when the input branch is non-nil, `output` to a map
of the same shape if and only if the output is present, `autoPush` to the boolean if and only
if the flag is non-nil, and no other key at either level. -/
theorem encoding_exact (r : SimpleRepo) (input : RepoLocation) (hin : r.Input = some input) :
    ToMapForCR r = specEncoding input r.Output r.AutoPush := by
  obtain ⟨i, o, p⟩ := r
  simp only at hin
  subst hin
  exact ToMapForCR_eq_spec input o p

/-- Witness for C8: scenario 4 of the specification; the encoding binds `autoPush` to `true`
and omits both `branch` keys. -/
theorem encoding_exact_witness :
    ToMapForCR ⟨some ⟨"https://github.com/user/repo", none⟩,
        some ⟨"https://github.com/user/fork", none⟩, some true⟩
      = specEncoding ⟨"https://github.com/user/repo", none⟩
        (some ⟨"https://github.com/user/fork", none⟩) (some true) :=
  encoding_exact ⟨some ⟨"https://github.com/user/repo", none⟩,
      some ⟨"https://github.com/user/fork", none⟩, some true⟩
    ⟨"https://github.com/user/repo", none⟩ rfl

/-- Counterexample to C9 as stated: a repo with a nil input and the auto-push flag set to
`true` encodes to a map without an `autoPush` key. -/
theorem autoPush_key_counterexample :
    (⟨none, none, some true⟩ : SimpleRepo).AutoPush = some true ∧
      (ToMapForCR ⟨none, none, some true⟩).hasKey "autoPush" = false ∧
      ToMapForCR ⟨none, none, some true⟩ = GoMap.empty :=
  ⟨rfl, rfl, rfl⟩

/-- C9 amended (P6, optional omission): for every repo, the map returned by `ToMapForCR` has
no `autoPush` key when the flag is nil; and for every repo with input present, the map binds
`autoPush` to the flag's boolean value whenever the flag is set. -/
theorem autoPush_key (r : SimpleRepo) :
    (r.AutoPush = none → (ToMapForCR r).hasKey "autoPush" = false) ∧
      (∀ input b, r.Input = some input → r.AutoPush = some b →
        ToMapForCR r "autoPush" = some (.bool b) ∧
          (ToMapForCR r).getBool "autoPush" = some b) := by
  obtain ⟨i, o, p⟩ := r
  constructor
  · intro hp
    simp only at hp
    subst hp
    cases i with
    | none => rfl
    | some input => rw [ToMapForCR_eq_spec]; rfl
  · intro input b hin hp
    simp only at hin hp
    subst hin hp
    rw [ToMapForCR_eq_spec]
    exact ⟨rfl, rfl⟩

/-- Witness for C9 amended: the flag set to `false` is emitted as `false`, and a nil flag is
omitted. -/
theorem autoPush_key_witness :
    (ToMapForCR ⟨some ⟨"https://github.com/user/repo", some "main"⟩, none, none⟩).hasKey
        "autoPush" = false ∧
      (ToMapForCR ⟨some ⟨"https://github.com/user/repo", some "main"⟩, none, some false⟩)
          "autoPush" = some (.bool false) ∧
      (ToMapForCR ⟨some ⟨"https://github.com/user/repo", some "main"⟩, none,
          some false⟩).getBool "autoPush" = some false :=
  ⟨(autoPush_key ⟨some ⟨"https://github.com/user/repo", some "main"⟩, none, none⟩).1 rfl,
    (autoPush_key ⟨some ⟨"https://github.com/user/repo", some "main"⟩, none, some false⟩).2
      ⟨"https://github.com/user/repo", some "main"⟩ false rfl rfl⟩

/-- C10 (nil branch encodes as an absent key): for a repo with input present, the encoded
`input` sub-map has a `branch` key if and only if the input branch is non-nil, and when the
output is present the encoded `output` sub-map has a `branch` key if and only if the output
branch is non-nil; a nil branch is never encoded as `"branch": ""`. -/
theorem branch_key_iff (r : SimpleRepo) (input : RepoLocation) (hin : r.Input = some input) :
    (∃ inputMap, (ToMapForCR r).getMap "input" = some inputMap ∧
      inputMap.hasKey "branch" = input.Branch.isSome ∧
      (input.Branch = none → inputMap "branch" ≠ some (.str ""))) ∧
    (∀ output, r.Output = some output →
      ∃ outputMap, (ToMapForCR r).getMap "output" = some outputMap ∧
        outputMap.hasKey "branch" = output.Branch.isSome ∧
        (output.Branch = none → outputMap "branch" ≠ some (.str ""))) := by
  obtain ⟨i, o, p⟩ := r
  simp only at hin
  subst hin
  rw [ToMapForCR_eq_spec]
  constructor
  · refine ⟨specLocationMap input, rfl, specLocationMap_hasKey_branch input, ?_⟩
    intro hb
    simp [specLocationMap, hb]
  · intro output hout
    simp only at hout
    subst hout
    refine ⟨specLocationMap output, rfl, specLocationMap_hasKey_branch output, ?_⟩
    intro hb
    simp [specLocationMap, hb]

/-- Witness for C10: input without a branch, output with branch "feature". -/
theorem branch_key_iff_witness :
    (∃ inputMap,
      (ToMapForCR ⟨some ⟨"https://github.com/user/repo", none⟩,
        some ⟨"https://github.com/user/fork", some "feature"⟩, none⟩).getMap "input"
          = some inputMap ∧
      inputMap.hasKey "branch" = false ∧
      ((none : Option String) = none → inputMap "branch" ≠ some (.str ""))) ∧
    (∃ outputMap,
      (ToMapForCR ⟨some ⟨"https://github.com/user/repo", none⟩,
        some ⟨"https://github.com/user/fork", some "feature"⟩, none⟩).getMap "output"
          = some outputMap ∧
      outputMap.hasKey "branch" = true) :=
  have h := branch_key_iff ⟨some ⟨"https://github.com/user/repo", none⟩,
      some ⟨"https://github.com/user/fork", some "feature"⟩, none⟩
    ⟨"https://github.com/user/repo", none⟩ rfl
  ⟨h.1, (h.2 ⟨"https://github.com/user/fork", some "feature"⟩ rfl).imp
    (fun _ hm => ⟨hm.1, hm.2.1⟩)⟩

/-- C12 (encoding preserves literal strings): for a repo with input present, the `url` and
`branch` values of the encoded `input` and `output` sub-maps are exactly the original strings,
untrimmed; in particular an empty or whitespace-only non-nil branch is emitted as a `branch`
key carrying that literal string, although validation treats it as equal to a nil branch. -/
theorem encoding_literal (r : SimpleRepo) (input : RepoLocation) (hin : r.Input = some input) :
    (∃ inputMap, (ToMapForCR r).getMap "input" = some inputMap ∧
      inputMap.getString "url" = some input.URL ∧
      (∀ b, input.Branch = some b →
        inputMap "branch" = some (.str b) ∧
          (isBlank b = true → normBranch (some b) = normBranch none))) ∧
    (∀ output, r.Output = some output →
      ∃ outputMap, (ToMapForCR r).getMap "output" = some outputMap ∧
        outputMap.getString "url" = some output.URL ∧
        (∀ b, output.Branch = some b →
          outputMap "branch" = some (.str b) ∧
            (isBlank b = true → normBranch (some b) = normBranch none))) := by
  obtain ⟨i, o, p⟩ := r
  simp only at hin
  subst hin
  rw [ToMapForCR_eq_spec]
  constructor
  · refine ⟨specLocationMap input, rfl, specLocationMap_getString_url input, ?_⟩
    intro b hb
    refine ⟨by rw [specLocationMap_branch, hb]; rfl, ?_⟩
    intro hblank
    exact normBranch_of_blank (some b) hblank
  · intro output hout
    simp only at hout
    subst hout
    refine ⟨specLocationMap output, rfl, specLocationMap_getString_url output, ?_⟩
    intro b hb
    refine ⟨by rw [specLocationMap_branch, hb]; rfl, ?_⟩
    intro hblank
    exact normBranch_of_blank (some b) hblank

/-- Witness for C12: a padded input URL and a whitespace-only input branch are emitted
literally. -/
theorem encoding_literal_witness :
    ∃ inputMap,
      (ToMapForCR ⟨some ⟨" https://github.com/user/repo ", some "  "⟩, none, none⟩).getMap
          "input" = some inputMap ∧
      inputMap.getString "url" = some " https://github.com/user/repo " ∧
      inputMap "branch" = some (.str "  ") ∧
      normBranch (some "  ") = normBranch none :=
  have h := (encoding_literal ⟨some ⟨" https://github.com/user/repo ", some "  "⟩, none, none⟩
    ⟨" https://github.com/user/repo ", some "  "⟩ rfl).1
  h.imp (fun _ hm => ⟨hm.1, hm.2.1, (hm.2.2 "  " rfl).1, (hm.2.2 "  " rfl).2 (by decide)⟩)

/-- C14 (the round trip needs only a present input): for every repo whose input is non-nil,
accepted by `ValidateRepo` or not, decoding the map returned by `ToMapForCR` yields a repo
that `reposEqual` accepts as equal to the original, and that is the original. -/
theorem round_trip_of_input (r : SimpleRepo) (h : r.Input ≠ none) :
    reposEqual r (reconstructed (ToMapForCR r)) = true ∧ reconstructed (ToMapForCR r) = r := by
  obtain ⟨i, o, p⟩ := r
  cases i with
  | none => exact absurd rfl h
  | some input =>
    have hrt := reconstructed_ToMapForCR input o p
    exact ⟨(reposEqual_iff _ _).mpr hrt.symm, hrt⟩

/-- Witness for C14: a repo rejected for a blank input URL and with an output identical to
the input still round-trips. -/
theorem round_trip_of_input_witness :
    ValidateRepo ⟨some ⟨"  ", some "main"⟩, some ⟨"  ", some "main"⟩, some false⟩
        = .error MissingInputURL ∧
      reposEqual ⟨some ⟨"  ", some "main"⟩, some ⟨"  ", some "main"⟩, some false⟩
        (reconstructed (ToMapForCR
          ⟨some ⟨"  ", some "main"⟩, some ⟨"  ", some "main"⟩, some false⟩)) = true ∧
      reconstructed (ToMapForCR
          ⟨some ⟨"  ", some "main"⟩, some ⟨"  ", some "main"⟩, some false⟩)
        = ⟨some ⟨"  ", some "main"⟩, some ⟨"  ", some "main"⟩, some false⟩ :=
  ⟨by decide,
    round_trip_of_input ⟨some ⟨"  ", some "main"⟩, some ⟨"  ", some "main"⟩, some false⟩
      (by decide)⟩

/-- C15 (nil input encodes to the empty map): for every repo whose input is nil, `ToMapForCR`
returns the empty map, so the decoded repo has no output and no auto-push flag; when the
output or the flag was set the decoded repo differs from the original; every such repo is
rejected by `ValidateRepo`; and such a repo exists. -/
theorem nil_input_encoding (r : SimpleRepo) (h : r.Input = none) :
    ToMapForCR r = GoMap.empty ∧
      reconstructed (ToMapForCR r) = ⟨none, none, none⟩ ∧
      ((r.Output ≠ none ∨ r.AutoPush ≠ none) →
        reconstructed (ToMapForCR r) ≠ r ∧ reposEqual r (reconstructed (ToMapForCR r)) = false) ∧
      ValidateRepo r = .error MissingInput ∧
      ∃ r0 : SimpleRepo, r0.Input = none ∧ reconstructed (ToMapForCR r0) ≠ r0 := by
  obtain ⟨i, o, p⟩ := r
  simp only at h
  subst h
  have hdec : reconstructed (ToMapForCR ⟨none, o, p⟩) = ⟨none, none, none⟩ := rfl
  refine ⟨rfl, hdec, ?_, rfl, ⟨⟨none, none, some true⟩, rfl, by decide⟩⟩
  intro hne
  have hneq : reconstructed (ToMapForCR ⟨none, o, p⟩) ≠ ⟨none, o, p⟩ := by
    rw [hdec]
    intro heq
    injection heq with _ ho hp
    rcases hne with hne | hne
    · exact hne ho.symm
    · exact hne hp.symm
  refine ⟨hneq, ?_⟩
  cases hre : reposEqual ⟨none, o, p⟩ (reconstructed (ToMapForCR ⟨none, o, p⟩)) with
  | false => rfl
  | true => exact absurd ((reposEqual_iff _ _).mp hre).symm hneq

/-- Witness for C15: a nil input with an output and the auto-push flag set. -/
theorem nil_input_encoding_witness :
    ToMapForCR ⟨none, some ⟨"https://github.com/user/fork", none⟩, some true⟩ = GoMap.empty ∧
      reconstructed (ToMapForCR ⟨none, some ⟨"https://github.com/user/fork", none⟩, some true⟩)
        ≠ ⟨none, some ⟨"https://github.com/user/fork", none⟩, some true⟩ ∧
      ValidateRepo ⟨none, some ⟨"https://github.com/user/fork", none⟩, some true⟩
        = .error MissingInput :=
  have h := nil_input_encoding
    ⟨none, some ⟨"https://github.com/user/fork", none⟩, some true⟩ rfl
  ⟨h.1, (h.2.2.1 (Or.inl (by decide))).1, h.2.2.2.1⟩

/-- C16 (validation is insensitive to surrounding white space): `ValidateRepo` returns the
same result on a repo and on the repo obtained by replacing every URL and every non-nil branch
by its `TrimSpace` value; hence two repos that agree after this trimming get the same result,
so padding can neither turn a rejected repo into an accepted one nor change the error. -/
theorem validate_trim_invariant (r : SimpleRepo) :
    ValidateRepo (trimRepo r) = ValidateRepo r ∧
      ∀ r', trimRepo r' = trimRepo r → ValidateRepo r' = ValidateRepo r := by
  have key : ∀ x : SimpleRepo, ValidateRepo (trimRepo x) = ValidateRepo x := fun x =>
    ValidateRepo_congr (trimRepo x) x (map_normLocation_trimLocation x.Input)
      (map_normLocation_trimLocation x.Output)
  refine ⟨key r, ?_⟩
  intro r' h
  rw [← key r', h, key r]

/-- Witness for C16: a padded repo and its trimmed form are both rejected as
`IdenticalInputOutput`. -/
theorem validate_trim_invariant_witness :
    trimRepo ⟨some ⟨" https://github.com/user/repo", some "main "⟩,
        some ⟨"https://github.com/user/repo\t", some " main"⟩, none⟩
      = ⟨some ⟨"https://github.com/user/repo", some "main"⟩,
        some ⟨"https://github.com/user/repo", some "main"⟩, none⟩ ∧
    ValidateRepo ⟨some ⟨" https://github.com/user/repo", some "main "⟩,
        some ⟨"https://github.com/user/repo\t", some " main"⟩, none⟩
      = .error IdenticalInputOutput ∧
    ValidateRepo (trimRepo ⟨some ⟨" https://github.com/user/repo", some "main "⟩,
        some ⟨"https://github.com/user/repo\t", some " main"⟩, none⟩)
      = ValidateRepo ⟨some ⟨" https://github.com/user/repo", some "main "⟩,
        some ⟨"https://github.com/user/repo\t", some " main"⟩, none⟩ :=
  ⟨by decide, by decide,
    (validate_trim_invariant ⟨some ⟨" https://github.com/user/repo", some "main "⟩,
      some ⟨"https://github.com/user/repo\t", some " main"⟩, none⟩).1⟩

/-- C17 (the auto-push flag never influences validation): two repos with the same input and
the same output get the same result from `ValidateRepo`, whatever their auto-push flags. -/
theorem validate_ignores_autoPush (r r' : SimpleRepo) (hI : r.Input = r'.Input)
    (hO : r.Output = r'.Output) : ValidateRepo r = ValidateRepo r' :=
  ValidateRepo_congr r r' (by rw [hI]) (by rw [hO])

/-- Witness for C17: the flag nil and the flag `true` on a repo that is accepted. -/
theorem validate_ignores_autoPush_witness :
    ValidateRepo ⟨some ⟨"https://github.com/user/repo", some "main"⟩,
        some ⟨"https://github.com/user/fork", none⟩, none⟩
      = ValidateRepo ⟨some ⟨"https://github.com/user/repo", some "main"⟩,
        some ⟨"https://github.com/user/fork", none⟩, some true⟩ :=
  validate_ignores_autoPush
    ⟨some ⟨"https://github.com/user/repo", some "main"⟩,
      some ⟨"https://github.com/user/fork", none⟩, none⟩
    ⟨some ⟨"https://github.com/user/repo", some "main"⟩,
      some ⟨"https://github.com/user/fork", none⟩, some true⟩ rfl rfl

/-- C13 (encode inverts decode on well-formed wire maps): for every map of the persisted
shape (an `input` sub-map with a string `url` and an optional string `branch`, an optional
`output` sub-map of the same shape, an optional boolean `autoPush`, no other keys), encoding
the repo decoded from the map returns a map equal to it. -/
theorem encode_decode_of_wellFormed (m : GoMap) (h : WellFormedRepoMap m) :
    ToMapForCR (reconstructed m) = m := by
  obtain ⟨⟨im, him, hwi⟩, hout, hauto, hrest⟩ := h
  rw [reconstructed_eq, getMap_of_map m "input" im him]
  simp only [Option.map_some']
  rw [ToMapForCR_eq_spec]
  funext k
  simp only [specEncoding]
  by_cases k1 : k = "input"
  · rw [if_pos k1, k1, him, specLocationMap_parseLocation im hwi]
  · rw [if_neg k1]
    by_cases k2 : k = "output"
    · rw [if_pos k2, k2]
      rcases hout with ho | ⟨om, ho, hwo⟩
      · rw [getMap_eq_none_of_absent m "output" ho, ho]
        rfl
      · rw [getMap_of_map m "output" om ho, ho]
        simp only [Option.map_some']
        rw [specLocationMap_parseLocation om hwo]
    · rw [if_neg k2]
      by_cases k3 : k = "autoPush"
      · rw [if_pos k3, k3]
        rcases hauto with ha | ⟨b, ha⟩
        · rw [getBool_eq_none_of_absent m "autoPush" ha, ha]
          rfl
        · rw [getBool_of_bool m "autoPush" b ha, ha]
          rfl
      · rw [if_neg k3, hrest k k1 k2 k3]

/-- Witness for C13: the wire map with an `input` sub-map carrying `url` and `branch`, an
`output` sub-map carrying only `url`, and `autoPush` bound to `false`. -/
theorem encode_decode_of_wellFormed_witness :
    WellFormedRepoMap (specEncoding ⟨"https://github.com/user/repo", some "main"⟩
        (some ⟨"https://github.com/user/fork", none⟩) (some false)) ∧
      ToMapForCR (reconstructed (specEncoding ⟨"https://github.com/user/repo", some "main"⟩
        (some ⟨"https://github.com/user/fork", none⟩) (some false)))
      = specEncoding ⟨"https://github.com/user/repo", some "main"⟩
        (some ⟨"https://github.com/user/fork", none⟩) (some false) :=
  ⟨specEncoding_wellFormed _ _ _,
    encode_decode_of_wellFormed _ (specEncoding_wellFormed _ _ _)⟩

end Session
